import Mathlib

/-!
Shallow embedding of the BondSports volleyball scrapers
(vball_training_scrape.py and vball_camps_scrape.py): text normalization,
tiered field extraction from cards, the season-card filter, the camps
extractor, and the per-category aggregation loop.
-/

namespace VballScrape

/-! ### Text normalizer (`_normalize_space`) -/

/-- Whitespace characters matched by Python's regex `\s` and by `str.strip()`
(ASCII range). -/
def isSpace (c : Char) : Bool :=
  c = ' ' || c = '\t' || c = '\n' || c = '\r' || c = '\x0b' || c = '\x0c'

/-- `re.sub(r"\s+", " ", s)`: replace every maximal whitespace run by one
space.  The boolean records whether the previous character was whitespace
(i.e. we are inside a run that has already emitted its space). -/
def collapseWS : Bool → List Char → List Char
  | _, [] => []
  | prev, c :: rest =>
    if isSpace c then
      if prev then collapseWS true rest else ' ' :: collapseWS true rest
    else c :: collapseWS false rest

/-- Python `str.strip()`: drop leading and trailing whitespace. -/
def pyStripList (l : List Char) : List Char :=
  ((l.dropWhile isSpace).reverse.dropWhile isSpace).reverse

/-- `_normalize_space(s)` = `re.sub(r"\s+", " ", (s or "")).strip()`;
`none` models Python `None`. -/
def _normalize_space (s : Option String) : String :=
  ⟨pyStripList (collapseWS false (s.getD "").data)⟩

/-- `_normalize_space` applied to a present string. -/
def normStr (s : String) : String := _normalize_space (some s)

/-- `str.strip()` on strings. -/
def pyStripStr (s : String) : String := ⟨pyStripList s.data⟩

/-! ### Case folding and substring search -/

/-- Python `str.lower()` (ASCII letters, as used by the filter). -/
def pyLower (s : String) : String := ⟨s.data.map Char.toLower⟩

/-- Python `str.upper()` (ASCII letters). -/
def pyUpper (s : String) : String := ⟨s.data.map Char.toUpper⟩

/-- Does `hay` start with `needle`? -/
def startsWithL : List Char → List Char → Bool
  | [], _ => true
  | _ :: _, [] => false
  | a :: as, b :: bs => a = b && startsWithL as bs

/-- Does `hay` end with `needle`? -/
def endsWithL (needle hay : List Char) : Bool :=
  startsWithL needle.reverse hay.reverse

/-- Substring occurrence (Python `needle in hay`). -/
def substrB (needle hay : List Char) : Bool :=
  (List.range (hay.length + 1)).any fun i => startsWithL needle (hay.drop i)

/-- Case-insensitive substring containment, as used by Playwright
`:has-text(...)` matching. -/
def containsCI (hay needle : String) : Bool :=
  substrB (pyLower needle).data (pyLower hay).data

/-! ### Regex models for the tier-2 heuristics -/

/-- Regex word character `\w` (ASCII). -/
def isWordChar (c : Char) : Bool := c.isAlphanum || c = '_'

/-- A `\b`-delimited occurrence of `w` at position `i` of `hay`. -/
def boundaryMatchAt (w hay : List Char) (i : Nat) : Bool :=
  startsWithL w (hay.drop i)
  && (match (hay.take i).getLast? with
      | none => true
      | some c => !isWordChar c)
  && (match (hay.drop (i + w.length)).head? with
      | none => true
      | some c => !isWordChar c)

/-- `re.search(r"\b...\b", hay)` for a literal word. -/
def wordSearch (w hay : List Char) : Bool :=
  (List.range (hay.length + 1)).any (boundaryMatchAt w hay)

/-- Case-insensitive word search (`re.I`). -/
def wordSearchCI (w ln : String) : Bool :=
  wordSearch (pyLower w).data (pyLower ln).data

/-- The month alternatives of the date heuristic regex. -/
def months : List String :=
  ["Jan", "Feb", "Mar", "Apr", "May", "Jun", "Jul", "Aug", "Sep", "Sept",
   "Oct", "Nov", "Dec"]

/-- `ln.upper().endswith("TRAINING") or re.search(r"\bTRAINING\b", ln, re.I)`. -/
def lineIsTitleCand (ln : String) : Bool :=
  endsWithL "TRAINING".data (pyUpper ln).data || wordSearchCI "TRAINING" ln

/-- `re.search(r"\b(Jan|...|Dec)\b", ln, re.I)`. -/
def lineHasMonth (ln : String) : Bool :=
  months.any fun m => wordSearchCI m ln

/-- `(AM|PM)` (case-insensitive) at the head of `l`. -/
def ampmAt (l : List Char) : Bool :=
  match l with
  | a :: b :: _ => (a.toLower = 'a' || a.toLower = 'p') && b.toLower = 'm'
  | _ => false

/-- `:\d{2}\s*(AM|PM)` at the head of `l`. -/
def timeTail (l : List Char) : Bool :=
  match l with
  | ':' :: d2 :: d3 :: rest =>
      d2.isDigit && d3.isDigit && ampmAt (rest.dropWhile isSpace)
  | _ => false

/-- `\d{1,2}:\d{2}\s*(AM|PM)` at the head of `l`. -/
def timeMatchAt (l : List Char) : Bool :=
  match l with
  | d1 :: rest =>
      d1.isDigit &&
        (timeTail rest ||
          (match rest with
            | d2 :: rest2 => d2.isDigit && timeTail rest2
            | [] => false))
  | [] => false

/-- `re.search(r"\d{1,2}:\d{2}\s*(AM|PM)", ln, re.I)`. -/
def lineHasTime (ln : String) : Bool :=
  (List.range (ln.data.length + 1)).any fun i => timeMatchAt (ln.data.drop i)

/-! ### Data model -/

/-- The `Event` dataclass of vball_training_scrape.py. -/
structure Event where
  title : String
  date : String
  time : String
  signup_url : String
deriving DecidableEq, Repr

/-- `dataclasses.asdict` on an `Event`: field name/value pairs in
declaration order, as serialized into the JSON payload. -/
def eventToDict (e : Event) : List (String × String) :=
  [("title", e.title), ("date", e.date), ("time", e.time),
   ("signup_url", e.signup_url)]

/-- The `Camp` dataclass of vball_camps_scrape.py. -/
structure Camp where
  title : String
  dates : String
  registration_starts : String
  signup_url : String
deriving DecidableEq, Repr

/-- One `li` of a card: `label` is the inner text of its `span` (none when
the `li` has no span, so `locator("span").inner_text()` raises), `value`
the inner text of its `p` (none when absent). -/
structure LabeledItem where
  label : Option String
  value : Option String
deriving DecidableEq, Repr

/-- One `ul[data-testid="events-session"]` block: its `li` children in
document order, and the block's whole `inner_text()`. -/
structure SessionCard where
  items : List LabeledItem
  rawText : String
deriving DecidableEq, Repr

/-- A loaded page as seen by `extract_events_from_page`: `none` models the
`wait_for_selector` timeout, `some cards` the enumerated blocks. -/
structure SessionPage where
  cards : Option (List SessionCard)
deriving DecidableEq, Repr

/-- One SeasonDetails card of the training scraper: the `h3` heading text
and the card's `li` items. -/
structure SeasonCard where
  title : String
  items : List LabeledItem
deriving DecidableEq, Repr

/-- A loaded page as seen by `extract_events_from_season_cards`: whether
the heading-marker wait resolved, and the card containers found. -/
structure SeasonPage where
  found : Bool
  cards : List SeasonCard
deriving DecidableEq, Repr

/-- One camps-page card: the `h3` heading and the grandparent card's
`li` items. -/
structure CampCard where
  heading : String
  items : List LabeledItem
deriving DecidableEq, Repr

/-- A loaded camps page. -/
structure CampsPage where
  found : Bool
  cards : List CampCard
deriving DecidableEq, Repr

/-! ### Event-session extraction (vball_training_scrape.py, tier 1 + 2) -/

/-- Does this `li` match `li:has(span:has-text(needle))`?  Playwright
`has-text` is case-insensitive substring match on normalized text. -/
def labelHasText (it : LabeledItem) (needle : String) : Bool :=
  match it.label with
  | some lab => containsCI (normStr lab) needle
  | none => false

/-- `ul.locator("li:has(span:has-text(needle)) p").first`: the first `p`
among the matching `li`s, i.e. the value of the first matching item that
actually has a `p`. -/
def firstLabeledP (items : List LabeledItem) (needle : String) : Option String :=
  ((items.filter fun it => labelHasText it needle && it.value.isSome).head?).bind
    (fun it => it.value)

/-- `ul.locator("li:has(span):nth-last-child(1) p").first`: the `p` of the
last child, provided that child has a `span`. -/
def lastWithSpanP (items : List LabeledItem) : Option String :=
  match items.getLast? with
  | some it => if it.label.isSome then it.value else none
  | none => none

/-- Normalize an optional inner text; absence yields the empty string
(the `if locator.count():` guard leaving the variable at `""`). -/
def optNorm : Option String → String
  | some v => normStr v
  | none => ""

/-- Tier-1 title of an event-session card (`Event Name` label). -/
def tier1Title (card : SessionCard) : String :=
  optNorm (firstLabeledP card.items "Event Name")

/-- Tier-1 date of an event-session card (`Dates` label). -/
def tier1Date (card : SessionCard) : String :=
  optNorm (firstLabeledP card.items "Dates")

/-- Tier-1 time of an event-session card: `Days & Time`, then `Days`,
then the last `li` that has a `span`. -/
def tier1Time (card : SessionCard) : String :=
  match firstLabeledP card.items "Days & Time" with
  | some v => normStr v
  | none =>
    match firstLabeledP card.items "Days" with
    | some v => normStr v
    | none => optNorm (lastWithSpanP card.items)

/-- Python `str.split("\n")` on character lists: `acc` holds the current
segment reversed. -/
def splitNLAux : List Char → List Char → List (List Char)
  | acc, [] => [acc.reverse]
  | acc, c :: rest =>
    if c = '\n' then acc.reverse :: splitNLAux [] rest
    else splitNLAux (c :: acc) rest

/-- Python `s.split("\n")`. -/
def splitNL (s : String) : List String :=
  (splitNLAux [] s.data).map fun l => ⟨l⟩

/-- `[ln.strip() for ln in _normalize_space(ul.inner_text()).split("\n")
if ln.strip()]`. -/
def tier2Lines (raw : String) : List String :=
  ((splitNL (_normalize_space (some raw))).map pyStripStr).filter
    (fun ln => !(ln = ""))

/-- One iteration of the tier-2 line loop over state (title, date, time). -/
def tier2Step (st : String × String × String) (ln : String) :
    String × String × String :=
  let t := if lineIsTitleCand ln && st.1 = "" then ln else st.1
  let d := if lineHasMonth ln && st.2.1 = "" then ln else st.2.1
  let tm := if lineHasTime ln && st.2.2 = "" then ln else st.2.2
  (t, d, tm)

/-- Tier-2 heuristic fallback: scan the card's raw-text lines, then
normalize all three fields. -/
def tier2 (card : SessionCard) (t d tm : String) : String × String × String :=
  let r := (tier2Lines card.rawText).foldl tier2Step (t, d, tm)
  (normStr r.1, normStr r.2.1, normStr r.2.2)

/-- The (title, date, time) triple produced for one event-session card:
tier 1, then tier 2 when tier 1 lacks a title or both date and time. -/
def sessionFields (card : SessionCard) : String × String × String :=
  let t := tier1Title card
  let d := tier1Date card
  let tm := tier1Time card
  if t ≠ "" ∧ (d ≠ "" ∨ tm ≠ "") then (t, d, tm)
  else tier2 card t d tm

/-- The loop body of `extract_events_from_page`: a card yields an `Event`
unless its title is still empty after both tiers. -/
def extractEventFromCard (categoryUrl : String) (card : SessionCard) :
    Option Event :=
  let r := sessionFields card
  if r.1 = "" then none
  else some ⟨r.1, r.2.1, r.2.2, categoryUrl⟩

/-- `extract_events_from_page`: empty on selector-wait timeout, else one
optional event per block, in order. -/
def extract_events_from_page (page : SessionPage) (categoryUrl : String) :
    List Event :=
  match page.cards with
  | none => []
  | some cs => cs.filterMap (extractEventFromCard categoryUrl)

/-! ### Season-card extraction (vball_training_scrape.py) -/

/-- The `Dates` scan of `extract_events_from_season_cards`: iterate the
`li`s; an item without a `span` raises, aborting the scan (outer
`except: pass`) and keeping the value accumulated so far; a `Dates` item
without a `p` is skipped by the inner `except: pass`. -/
def seasonDate : String → List LabeledItem → String
  | d, [] => d
  | d, it :: rest =>
    match it.label with
    | none => d
    | some lab =>
      if normStr lab = "Dates" then
        match it.value with
        | some v => seasonDate (normStr v) rest
        | none => seasonDate d rest
      else seasonDate d rest

/-- The loop body of `extract_events_from_season_cards`: normalize the
heading, apply the category filter, collect the `Dates` value; the `time`
field is always the empty string here. -/
def seasonCardToEvent (signupUrl filterWord : String) (c : SeasonCard) :
    Option Event :=
  let title := normStr c.title
  if title = "" ∨ substrB (pyLower filterWord).data (pyLower title).data = false then
    none
  else some ⟨title, seasonDate "" c.items, "", signupUrl⟩

/-- `extract_events_from_season_cards`: empty on marker-wait timeout. -/
def extract_events_from_season_cards (page : SeasonPage)
    (signupUrl filterWord : String) : List Event :=
  if page.found then page.cards.filterMap (seasonCardToEvent signupUrl filterWord)
  else []

/-! ### Camps extraction (vball_camps_scrape.py) -/

/-- `CAMPS_URL` of vball_camps_scrape.py. -/
def CAMPS_URL : String :=
  "https://bondsports.co/activity/programs/CO_ED-youth-VOLLEYBALL/13552"

/-- The label/value scan of `extract_camps`: every matching label
reassigns its field; an item without a `span` is skipped (`continue`);
a missing `p` leaves `value` at `""` (which is then assigned). -/
def campFields : String → String → List LabeledItem → String × String
  | dates, regs, [] => (dates, regs)
  | dates, regs, it :: rest =>
    match it.label with
    | none => campFields dates regs rest
    | some lab =>
      let labN := normStr lab
      let value := optNorm it.value
      if labN = "Dates" then campFields value regs rest
      else if labN = "Registration Starts" then campFields dates value rest
      else campFields dates regs rest

/-- The loop body of `extract_camps`: titleless cards are dropped. -/
def campFromCard (c : CampCard) : Option Camp :=
  let title := normStr c.heading
  if title = "" then none
  else
    let fr := campFields "" "" c.items
    some ⟨title, fr.1, fr.2, CAMPS_URL⟩

/-- `extract_camps`: empty on marker-wait timeout. -/
def extract_camps (page : CampsPage) : List Camp :=
  if page.found then page.cards.filterMap campFromCard else []

/-! ### The per-category aggregation loop (`run`) -/

/-- The configuration record for one category (`meta` dict): every key is
optional, read with `meta.get(key, default)`. -/
structure CategoryMeta where
  label : Option String
  url : Option String
  scrape_mode : Option String
  signup_url : Option String
  filter : Option String
deriving DecidableEq, Repr

/-- A successfully navigated page, supporting both query shapes. -/
structure LoadedPage where
  sessionView : SessionPage
  seasonView : SeasonPage
deriving DecidableEq, Repr

/-- Outcome of `page.goto` plus the extraction `try` block for one
category: navigation timeout, other navigation error, or a loaded page
together with whether the extraction block raised. -/
inductive NavOutcome where
  | timeout
  | error
  | loaded (pg : LoadedPage) (extractionRaises : Bool)
deriving DecidableEq, Repr

/-- One entry of `payload["categories"]`. -/
structure CategoryResult where
  label : String
  url : String
  events : List Event
deriving DecidableEq, Repr

/-- The body of `run`'s per-category loop. -/
def runCategory (world : String → NavOutcome) (key : String)
    (meta : CategoryMeta) : CategoryResult :=
  let label := meta.label.getD key
  let url := meta.url.getD ""
  match world key with
  | .timeout => ⟨label, url, []⟩
  | .error => ⟨label, url, []⟩
  | .loaded pg exRaises =>
    if exRaises then ⟨label, url, []⟩
    else
      let mode := meta.scrape_mode.getD "event_sessions"
      let signupUrl := meta.signup_url.getD url
      let filterWord := meta.filter.getD ""
      let events :=
        if mode = "season_cards" then
          extract_events_from_season_cards pg.seasonView signupUrl filterWord
        else extract_events_from_page pg.sessionView url
      ⟨label, url, events⟩

/-- `run`: the `payload["categories"]` mapping, in configuration order
(Python dicts preserve insertion order). -/
def runCategories (world : String → NavOutcome)
    (cats : List (String × CategoryMeta)) : List (String × CategoryResult) :=
  cats.map fun kv => (kv.1, runCategory world kv.1 kv.2)

/-! ### Lemmas about the normalizer -/

/-- Adjacent characters are not both whitespace. -/
def noWSPair (a b : Char) : Prop := ¬(isSpace a = true ∧ isSpace b = true)

theorem collapseWS_true_head (l : List Char) :
    ∀ c, (collapseWS true l).head? = some c → isSpace c = false := by
  induction l with
  | nil => intro c h; simp [collapseWS] at h
  | cons a l ih =>
    intro c h
    cases ha : isSpace a with
    | true => rw [collapseWS, if_pos ha, if_pos rfl] at h; exact ih c h
    | false =>
      rw [collapseWS, if_neg (by simp [ha])] at h
      simp only [List.head?_cons, Option.some.injEq] at h
      subst h; exact ha

theorem collapseWS_chain (l : List Char) :
    ∀ b, List.Chain' noWSPair (collapseWS b l) := by
  induction l with
  | nil => intro b; simp [collapseWS]
  | cons a l ih =>
    intro b
    cases ha : isSpace a with
    | true =>
      cases b with
      | true => rw [collapseWS, if_pos ha, if_pos rfl]; exact ih true
      | false =>
        rw [collapseWS, if_pos ha, if_neg (by simp)]
        rw [List.chain'_cons']
        refine ⟨?_, ih true⟩
        intro y hy
        have hns := collapseWS_true_head l y hy
        intro hc
        rw [hns] at hc
        exact Bool.false_ne_true hc.2
    | false =>
      rw [collapseWS, if_neg (by simp [ha])]
      rw [List.chain'_cons']
      refine ⟨?_, ih false⟩
      intro y _ hc
      rw [ha] at hc
      exact Bool.false_ne_true hc.1

theorem collapseWS_spaces (l : List Char) :
    ∀ b c, c ∈ collapseWS b l → isSpace c = true → c = ' ' := by
  induction l with
  | nil => intro b c h; simp [collapseWS] at h
  | cons a l ih =>
    intro b c h hc
    cases ha : isSpace a with
    | true =>
      cases b with
      | true => rw [collapseWS, if_pos ha, if_pos rfl] at h; exact ih true c h hc
      | false =>
        rw [collapseWS, if_pos ha, if_neg (by simp)] at h
        rcases List.mem_cons.mp h with h | h
        · exact h
        · exact ih true c h hc
    | false =>
      rw [collapseWS, if_neg (by simp [ha])] at h
      rcases List.mem_cons.mp h with h | h
      · subst h; rw [ha] at hc; exact absurd hc Bool.false_ne_true
      · exact ih false c h hc

theorem mem_of_mem_dropWhile {α : Type} {p : α → Bool} :
    ∀ {l : List α} {a : α}, a ∈ l.dropWhile p → a ∈ l := by
  intro l
  induction l with
  | nil => intro a h; simp [List.dropWhile] at h
  | cons x l ih =>
    intro a h
    rw [List.dropWhile_cons] at h
    by_cases hx : p x = true
    · rw [if_pos hx] at h; exact List.mem_cons_of_mem x (ih h)
    · rw [if_neg hx] at h; exact h

theorem head_dropWhile {α : Type} {p : α → Bool} :
    ∀ {l : List α} {a : α}, (l.dropWhile p).head? = some a → p a = false := by
  intro l
  induction l with
  | nil => intro a h; simp [List.dropWhile] at h
  | cons x l ih =>
    intro a h
    rw [List.dropWhile_cons] at h
    by_cases hx : p x = true
    · rw [if_pos hx] at h; exact ih h
    · rw [if_neg hx] at h
      simp only [List.head?_cons, Option.some.injEq] at h
      subst h
      exact Bool.not_eq_true _ |>.mp hx

theorem getLast?_dropWhile {α : Type} {p : α → Bool} :
    ∀ (l : List α), l.dropWhile p = [] ∨ (l.dropWhile p).getLast? = l.getLast? := by
  intro l
  induction l with
  | nil => exact Or.inl rfl
  | cons x l ih =>
    rw [List.dropWhile_cons]
    by_cases hx : p x = true
    · rw [if_pos hx]
      rcases ih with h | h
      · exact Or.inl h
      · cases l with
        | nil => simp [List.dropWhile]
        | cons y l => exact Or.inr (h.trans List.getLast?_cons_cons.symm)
    · rw [if_neg hx]; exact Or.inr rfl

theorem chain'_dropWhile {α : Type} {R : α → α → Prop} {p : α → Bool} :
    ∀ {l : List α}, List.Chain' R l → List.Chain' R (l.dropWhile p) := by
  intro l
  induction l with
  | nil => intro h; exact h
  | cons x l ih =>
    intro h
    rw [List.dropWhile_cons]
    by_cases hx : p x = true
    · rw [if_pos hx]; exact ih ((List.chain'_cons'.mp h).2)
    · rw [if_neg hx]; exact h

theorem chain'_noWS_reverse {l : List Char} (h : List.Chain' noWSPair l) :
    List.Chain' noWSPair l.reverse := by
  rw [List.chain'_reverse]
  exact h.imp fun a b hab hc => hab ⟨hc.2, hc.1⟩

theorem pyStrip_chain {l : List Char} (h : List.Chain' noWSPair l) :
    List.Chain' noWSPair (pyStripList l) := by
  unfold pyStripList
  exact chain'_noWS_reverse (chain'_dropWhile (chain'_noWS_reverse (chain'_dropWhile h)))

theorem pyStrip_mem {l : List Char} {c : Char} (h : c ∈ pyStripList l) : c ∈ l := by
  unfold pyStripList at h
  rw [List.mem_reverse] at h
  have h1 := mem_of_mem_dropWhile h
  rw [List.mem_reverse] at h1
  exact mem_of_mem_dropWhile h1

theorem pyStrip_head {l : List Char} :
    ∀ c, (pyStripList l).head? = some c → isSpace c = false := by
  intro c h
  unfold pyStripList at h
  rw [List.head?_reverse] at h
  rcases getLast?_dropWhile ((l.dropWhile isSpace).reverse) with hz | hz
  · rw [hz] at h; simp at h
  · rw [hz, List.getLast?_reverse] at h
    exact head_dropWhile h

theorem pyStrip_last {l : List Char} :
    ∀ c, (pyStripList l).getLast? = some c → isSpace c = false := by
  intro c h
  unfold pyStripList at h
  rw [List.getLast?_reverse] at h
  exact head_dropWhile h

theorem norm_chain (s : Option String) :
    List.Chain' noWSPair (_normalize_space s).data :=
  pyStrip_chain (collapseWS_chain _ false)

theorem norm_head (s : Option String) :
    ∀ c, (_normalize_space s).data.head? = some c → isSpace c = false :=
  fun c h => pyStrip_head c h

theorem norm_last (s : Option String) :
    ∀ c, (_normalize_space s).data.getLast? = some c → isSpace c = false :=
  fun c h => pyStrip_last c h

theorem norm_spaces (s : Option String) :
    ∀ c ∈ (_normalize_space s).data, isSpace c = true → c = ' ' :=
  fun c hc => collapseWS_spaces _ false c (pyStrip_mem hc)

theorem collapseWS_fix :
    ∀ (l : List Char) (b : Bool), List.Chain' noWSPair l →
      (∀ c ∈ l, isSpace c = true → c = ' ') →
      (b = true → ∀ c, l.head? = some c → isSpace c = false) →
      collapseWS b l = l := by
  intro l
  induction l with
  | nil => intro b _ _ _; rfl
  | cons a l ih =>
    intro b hch hsp hb
    cases ha : isSpace a with
    | true =>
      have ha' : a = ' ' := hsp a (List.mem_cons_self a l) ha
      cases b with
      | true => exact absurd ha (by rw [hb rfl a List.head?_cons]; exact Bool.false_ne_true)
      | false =>
        rw [collapseWS, if_pos ha, if_neg (by simp)]
        rw [← ha']
        congr 1
        refine ih true ((List.chain'_cons'.mp hch).2)
          (fun c hc => hsp c (List.mem_cons_of_mem a hc)) ?_
        intro _ c hc
        have := (List.chain'_cons'.mp hch).1 c hc
        unfold noWSPair at this
        cases hcs : isSpace c with
        | true => exact absurd ⟨ha, hcs⟩ this
        | false => rfl
    | false =>
      rw [collapseWS, if_neg (by simp [ha])]
      congr 1
      exact ih false ((List.chain'_cons'.mp hch).2)
        (fun c hc => hsp c (List.mem_cons_of_mem a hc)) (by simp)

theorem dropWhile_eq_self_of_head {α : Type} {p : α → Bool} :
    ∀ {l : List α}, (∀ a, l.head? = some a → p a = false) → l.dropWhile p = l := by
  intro l h
  cases l with
  | nil => rfl
  | cons x l =>
    rw [List.dropWhile_cons, if_neg]
    rw [h x List.head?_cons]
    simp

theorem pyStrip_fix {l : List Char}
    (h1 : ∀ c, l.head? = some c → isSpace c = false)
    (h2 : ∀ c, l.getLast? = some c → isSpace c = false) :
    pyStripList l = l := by
  unfold pyStripList
  rw [dropWhile_eq_self_of_head h1]
  rw [dropWhile_eq_self_of_head (by intro a ha; rw [List.head?_reverse] at ha; exact h2 a ha)]
  exact List.reverse_reverse l

theorem all_take_one {l : List Char}
    (h : ∀ c, l.head? = some c → isSpace c = false) :
    (l.take 1).all (fun c => !isSpace c) = true := by
  cases l with
  | nil => rfl
  | cons a l =>
    have := h a List.head?_cons
    simp [List.all, this]

/-! ### Lemmas about the card extractors -/

theorem extractEventFromCard_eq {u : String} {card : SessionCard} {e : Event}
    (h : extractEventFromCard u card = some e) :
    (sessionFields card).1 ≠ ""
    ∧ e = ⟨(sessionFields card).1, (sessionFields card).2.1,
        (sessionFields card).2.2, u⟩ := by
  simp only [extractEventFromCard] at h
  split at h
  · cases h
  · rename_i h1
    refine ⟨h1, ?_⟩
    injection h with h2
    rw [← h2]

theorem seasonCardToEvent_eq {u f : String} {c : SeasonCard} {e : Event}
    (h : seasonCardToEvent u f c = some e) :
    normStr c.title ≠ ""
    ∧ substrB (pyLower f).data (pyLower (normStr c.title)).data = true
    ∧ e = ⟨normStr c.title, seasonDate "" c.items, "", u⟩ := by
  simp only [seasonCardToEvent] at h
  split at h
  · cases h
  · rename_i h1
    rw [not_or] at h1
    refine ⟨h1.1, ?_, ?_⟩
    · cases hb : substrB (pyLower f).data (pyLower (normStr c.title)).data
      · exact absurd hb h1.2
      · rfl
    · injection h with h2
      rw [← h2]

theorem campFromCard_eq {c : CampCard} {k : Camp}
    (h : campFromCard c = some k) :
    normStr c.heading ≠ ""
    ∧ k = ⟨normStr c.heading, (campFields "" "" c.items).1,
        (campFields "" "" c.items).2, CAMPS_URL⟩ := by
  simp only [campFromCard] at h
  split at h
  · cases h
  · rename_i h1
    refine ⟨h1, ?_⟩
    injection h with h2
    rw [← h2]

theorem extract_events_from_page_mem {page : SessionPage} {url : String}
    {e : Event} (he : e ∈ extract_events_from_page page url) :
    ∃ card cs, page.cards = some cs ∧ card ∈ cs
      ∧ extractEventFromCard url card = some e := by
  unfold extract_events_from_page at he
  cases hc : page.cards with
  | none => rw [hc] at he; cases he
  | some cs =>
    rw [hc] at he
    obtain ⟨card, hcard, hsome⟩ := List.mem_filterMap.mp he
    exact ⟨card, cs, rfl, hcard, hsome⟩

theorem extract_events_from_season_cards_mem {page : SeasonPage}
    {u f : String} {e : Event}
    (he : e ∈ extract_events_from_season_cards page u f) :
    ∃ c ∈ page.cards, seasonCardToEvent u f c = some e := by
  unfold extract_events_from_season_cards at he
  by_cases hf : page.found = true
  · rw [if_pos hf] at he
    obtain ⟨c, hc, hsome⟩ := List.mem_filterMap.mp he
    exact ⟨c, hc, hsome⟩
  · rw [if_neg hf] at he; cases he

theorem extract_camps_mem {page : CampsPage} {k : Camp}
    (hk : k ∈ extract_camps page) :
    ∃ c ∈ page.cards, campFromCard c = some k := by
  unfold extract_camps at hk
  by_cases hf : page.found = true
  · rw [if_pos hf] at hk
    obtain ⟨c, hc, hsome⟩ := List.mem_filterMap.mp hk
    exact ⟨c, hc, hsome⟩
  · rw [if_neg hf] at hk; cases hk

/-- The keys of the output mapping are the configured keys, in order. -/
theorem runCategories_keys (world : String → NavOutcome)
    (cats : List (String × CategoryMeta)) :
    (runCategories world cats).map Prod.fst = cats.map Prod.fst := by
  unfold runCategories
  rw [List.map_map]
  rfl

/-- The empty needle occurs in every haystack (Python `"" in s`). -/
theorem substrB_nil (hay : List Char) : substrB [] hay = true := by
  unfold substrB
  rw [List.any_eq_true]
  exact ⟨0, List.mem_range.mpr (Nat.succ_pos _), rfl⟩

/-! ### Claim theorems -/

/-- Claim C8: for every input string, `_normalize_space` yields a string
with no two adjacent whitespace characters, no leading and no trailing
whitespace; it is idempotent; and a missing (`None`) input yields the
empty string. -/
theorem normalize_space_spec (s : Option String) :
    List.Chain' noWSPair (_normalize_space s).data
    ∧ ((_normalize_space s).data.take 1).all (fun c => !isSpace c) = true
    ∧ ((_normalize_space s).data.reverse.take 1).all (fun c => !isSpace c) = true
    ∧ _normalize_space (some (_normalize_space s)) = _normalize_space s
    ∧ _normalize_space none = "" := by
  refine ⟨norm_chain s, all_take_one (norm_head s), ?_, ?_, rfl⟩
  · refine all_take_one ?_
    intro c hc
    rw [List.head?_reverse] at hc
    exact norm_last s c hc
  · have hcol : collapseWS false (_normalize_space s).data = (_normalize_space s).data :=
      collapseWS_fix _ false (norm_chain s) (norm_spaces s) (by simp)
    have hstrip : pyStripList (_normalize_space s).data = (_normalize_space s).data :=
      pyStrip_fix (norm_head s) (norm_last s)
    show (⟨pyStripList (collapseWS false (_normalize_space s).data)⟩ : String)
        = _normalize_space s
    rw [hcol, hstrip]

/-- Claim C3: every event or camp produced by any of the three extractors
has a non-empty title; titleless cards are dropped. -/
theorem title_required :
    (∀ (page : SessionPage) (url : String) (e : Event),
        e ∈ extract_events_from_page page url → e.title ≠ "")
    ∧ (∀ (page : SeasonPage) (u f : String) (e : Event),
        e ∈ extract_events_from_season_cards page u f → e.title ≠ "")
    ∧ (∀ (page : CampsPage) (k : Camp), k ∈ extract_camps page → k.title ≠ "") := by
  refine ⟨?_, ?_, ?_⟩
  · intro page url e he
    obtain ⟨card, cs, _, _, hsome⟩ := extract_events_from_page_mem he
    obtain ⟨h1, h2⟩ := extractEventFromCard_eq hsome
    rw [h2]
    exact h1
  · intro page u f e he
    obtain ⟨c, _, hsome⟩ := extract_events_from_season_cards_mem he
    obtain ⟨h1, _, h2⟩ := seasonCardToEvent_eq hsome
    rw [h2]
    exact h1
  · intro page k hk
    obtain ⟨c, _, hsome⟩ := extract_camps_mem hk
    obtain ⟨h1, h2⟩ := campFromCard_eq hsome
    rw [h2]
    exact h1

/-- Concrete session page for the C3 witness: one card carrying an
`Event Name` item. -/
def c3Page : SessionPage := ⟨some [⟨[⟨some "Event Name", some "X"⟩], ""⟩]⟩

theorem title_required_witness :
    (⟨"X", "", "X", "u"⟩ : Event) ∈ extract_events_from_page c3Page "u"
    ∧ (⟨"X", "", "X", "u"⟩ : Event).title ≠ "" :=
  ⟨by decide, title_required.1 c3Page "u" _ (by decide)⟩

/-- Claim C4: the output mapping carries exactly the configured keys in
configuration order, and for a category whose navigation timed out,
whose navigation raised, or whose extraction raised, the entry is its
label, URL and an empty event list. -/
theorem run_category_completeness :
    (∀ (world : String → NavOutcome) (cats : List (String × CategoryMeta)),
        (runCategories world cats).map Prod.fst = cats.map Prod.fst)
    ∧ (∀ (world : String → NavOutcome) (cats : List (String × CategoryMeta))
          (key : String),
        ((runCategories world cats).map Prod.fst).count key
          = (cats.map Prod.fst).count key)
    ∧ (∀ (world : String → NavOutcome) (cats : List (String × CategoryMeta))
          (key : String) (meta : CategoryMeta),
        (key, meta) ∈ cats →
        (world key = NavOutcome.timeout ∨ world key = NavOutcome.error ∨
          ∃ pg, world key = NavOutcome.loaded pg true) →
        (key, (⟨meta.label.getD key, meta.url.getD "", []⟩ : CategoryResult)) ∈
          runCategories world cats) := by
  refine ⟨runCategories_keys, ?_, ?_⟩
  · intro world cats key
    rw [runCategories_keys]
  · intro world cats key meta hmem hfail
    have h : runCategory world key meta
        = ⟨meta.label.getD key, meta.url.getD "", []⟩ := by
      rcases hfail with h | h | ⟨pg, h⟩ <;> simp [runCategory, h]
    have := List.mem_map_of_mem
      (f := fun kv : String × CategoryMeta => (kv.1, runCategory world kv.1 kv.2)) hmem
    simpa [runCategories, h] using this

/-- Concrete configuration for the C4 witness. -/
def metaC4 : CategoryMeta := ⟨some "L", some "https://x", none, none, none⟩

/-- Concrete world for the C4 witness: navigation always times out. -/
def worldC4 : String → NavOutcome := fun _ => NavOutcome.timeout

theorem run_category_completeness_witness :
    ("k", (⟨"L", "https://x", []⟩ : CategoryResult)) ∈
      runCategories worldC4 [("k", metaC4)] :=
  run_category_completeness.2.2 worldC4 [("k", metaC4)] "k" metaC4
    (by decide) (Or.inl rfl)

/-- `(seasonCardToEvent u f c).isSome` states exactly the loop's admit
condition. -/
theorem seasonCardToEvent_isSome {u f : String} {c : SeasonCard} :
    (seasonCardToEvent u f c).isSome = true
      ↔ ¬(normStr c.title = ""
          ∨ substrB (pyLower f).data (pyLower (normStr c.title)).data = false) := by
  simp only [seasonCardToEvent]
  split
  · rename_i hc; simp [hc]
  · rename_i hc; simp [hc]

/-- Claim C6: a titled season card is admitted iff the filter is empty or
occurs case-insensitively in its title; on the two concrete cards,
`"beginner"` admits exactly the first and `""` admits both. -/
theorem season_filter :
    (∀ (c : SeasonCard) (u f : String), normStr c.title ≠ "" →
        ((seasonCardToEvent u f c).isSome = true
          ↔ (f = "" ∨ substrB (pyLower f).data (pyLower (normStr c.title)).data = true)))
    ∧ extract_events_from_season_cards
        ⟨true, [⟨"Training: Beginner 10U", []⟩, ⟨"Training: Advanced 14U+", []⟩]⟩
        "u" "beginner"
      = [⟨"Training: Beginner 10U", "", "", "u"⟩]
    ∧ extract_events_from_season_cards
        ⟨true, [⟨"Training: Beginner 10U", []⟩, ⟨"Training: Advanced 14U+", []⟩]⟩
        "u" ""
      = [⟨"Training: Beginner 10U", "", "", "u"⟩,
         ⟨"Training: Advanced 14U+", "", "", "u"⟩] := by
  refine ⟨?_, by decide, by decide⟩
  intro c u f ht
  rw [seasonCardToEvent_isSome, not_or]
  constructor
  · intro h
    cases hb : substrB (pyLower f).data (pyLower (normStr c.title)).data
    · exact absurd hb h.2
    · exact Or.inr rfl
  · intro h
    refine ⟨ht, ?_⟩
    rcases h with h | h
    · subst h
      rw [show (pyLower "").data = ([] : List Char) from rfl, substrB_nil]
      simp
    · rw [h]; simp

/-- Concrete card for the C6 witness. -/
def c6Card : SeasonCard := ⟨"Training: Beginner 10U", []⟩

theorem season_filter_witness :
    (seasonCardToEvent "u" "beginner" c6Card).isSome = true :=
  (season_filter.1 c6Card "u" "beginner" (by decide)).mpr (Or.inr (by decide))

/-- Claim C7: when the element-wait for the first DOM marker times out,
each extractor returns the empty list instead of raising, and the run
still yields an entry for every configured category. -/
theorem timeout_degradation :
    (∀ url, extract_events_from_page ⟨none⟩ url = [])
    ∧ (∀ (cs : List SeasonCard) (u f : String),
        extract_events_from_season_cards ⟨false, cs⟩ u f = [])
    ∧ (∀ (cs : List CampCard), extract_camps ⟨false, cs⟩ = [])
    ∧ (∀ (world : String → NavOutcome) (cats : List (String × CategoryMeta)),
        (runCategories world cats).map Prod.fst = cats.map Prod.fst)
    ∧ (∀ (world : String → NavOutcome) (cats : List (String × CategoryMeta))
          (key : String) (meta : CategoryMeta) (pg : LoadedPage),
        (key, meta) ∈ cats → world key = NavOutcome.loaded pg false →
        pg.sessionView = ⟨none⟩ → meta.scrape_mode = none →
        (key, (⟨meta.label.getD key, meta.url.getD "", []⟩ : CategoryResult)) ∈
          runCategories world cats) := by
  refine ⟨fun url => rfl, fun cs u f => rfl, fun cs => rfl, runCategories_keys, ?_⟩
  intro world cats key meta pg hmem hw hpg hmode
  have h : runCategory world key meta
      = ⟨meta.label.getD key, meta.url.getD "", []⟩ := by
    simp [runCategory, hw, hmode, hpg, extract_events_from_page]
  have := List.mem_map_of_mem
    (f := fun kv : String × CategoryMeta => (kv.1, runCategory world kv.1 kv.2)) hmem
  simpa [runCategories, h] using this

/-- Concrete world for the C7 witness: the page loads but the marker
never appears. -/
def worldC7 : String → NavOutcome :=
  fun _ => NavOutcome.loaded ⟨⟨none⟩, ⟨false, []⟩⟩ false

/-- Concrete configuration for the C7 witness. -/
def metaC7 : CategoryMeta := ⟨some "L", some "https://x", none, none, none⟩

theorem timeout_degradation_witness :
    ("k", (⟨"L", "https://x", []⟩ : CategoryResult)) ∈
      runCategories worldC7 [("k", metaC7)] :=
  timeout_degradation.2.2.2.2 worldC7 [("k", metaC7)] "k" metaC7
    ⟨⟨none⟩, ⟨false, []⟩⟩ (by decide) rfl rfl rfl

/-- Every event emitted in event-session mode carries the category page
URL as its signup URL. -/
theorem extract_events_signup (page : SessionPage) (url : String) :
    ∀ e ∈ extract_events_from_page page url, e.signup_url = url := by
  intro e he
  obtain ⟨card, cs, _, _, hsome⟩ := extract_events_from_page_mem he
  obtain ⟨_, h2⟩ := extractEventFromCard_eq hsome
  rw [h2]

/-- Claim C10: a category whose configured mode is anything other than
`"season_cards"` (absent included) is dispatched to event-session
extraction, whose events all carry the category page URL as signup URL,
regardless of any configured override signup URL. -/
theorem dispatch_default_mode :
    ∀ (world : String → NavOutcome) (cats : List (String × CategoryMeta))
      (key : String) (meta : CategoryMeta) (pg : LoadedPage),
      (key, meta) ∈ cats → world key = NavOutcome.loaded pg false →
      meta.scrape_mode.getD "event_sessions" ≠ "season_cards" →
      (key, (⟨meta.label.getD key, meta.url.getD "",
          extract_events_from_page pg.sessionView (meta.url.getD "")⟩ :
            CategoryResult)) ∈ runCategories world cats
      ∧ ∀ e ∈ extract_events_from_page pg.sessionView (meta.url.getD ""),
          e.signup_url = meta.url.getD "" := by
  intro world cats key meta pg hmem hw hmode
  refine ⟨?_, extract_events_signup _ _⟩
  have h : runCategory world key meta
      = ⟨meta.label.getD key, meta.url.getD "",
          extract_events_from_page pg.sessionView (meta.url.getD "")⟩ := by
    simp [runCategory, hw, hmode]
  have := List.mem_map_of_mem
    (f := fun kv : String × CategoryMeta => (kv.1, runCategory world kv.1 kv.2)) hmem
  simpa [runCategories, h] using this

/-- Concrete configuration for the C10 witness: misspelled mode and an
explicit override signup URL. -/
def metaC10 : CategoryMeta :=
  ⟨some "L", some "https://page", some "event_sessionz", some "https://override", none⟩

/-- Concrete loaded page for the C10 witness. -/
def pgC10 : LoadedPage :=
  ⟨⟨some [⟨[⟨some "Event Name", some "T"⟩], ""⟩]⟩, ⟨false, []⟩⟩

/-- Concrete world for the C10 witness. -/
def worldC10 : String → NavOutcome := fun _ => NavOutcome.loaded pgC10 false

theorem dispatch_default_mode_witness :
    ("k", (⟨"L", "https://page",
        extract_events_from_page pgC10.sessionView "https://page"⟩ :
          CategoryResult)) ∈ runCategories worldC10 [("k", metaC10)]
    ∧ ∀ e ∈ extract_events_from_page pgC10.sessionView "https://page",
        e.signup_url = "https://page" :=
  dispatch_default_mode worldC10 [("k", metaC10)] "k" metaC10 pgC10
    (by decide) rfl (by decide)

/-- Concrete event-session card for claim C1: no labeled items, raw text
of three lines. -/
def c1Card : SessionCard := ⟨[], "VOLLEYBALL TRAINING\nAug 14, 2025\n6:00 PM"⟩

/-- Claim C1 evaluated at its own input: because `_normalize_space`
collapses the newlines before the `split("\n")`, the whole card text is
one line, and title, date and time all become that collapsed line — the
title is not `"VOLLEYBALL TRAINING"` as the claim requires (the date and
time containment parts do hold on the collapsed line). -/
theorem tier_fallback_collapsed :
    extract_events_from_page ⟨some [c1Card]⟩ "u" =
      [⟨"VOLLEYBALL TRAINING Aug 14, 2025 6:00 PM",
        "VOLLEYBALL TRAINING Aug 14, 2025 6:00 PM",
        "VOLLEYBALL TRAINING Aug 14, 2025 6:00 PM", "u"⟩]
    ∧ ("VOLLEYBALL TRAINING Aug 14, 2025 6:00 PM" : String) ≠ "VOLLEYBALL TRAINING"
    ∧ substrB "Aug 14, 2025".data "VOLLEYBALL TRAINING Aug 14, 2025 6:00 PM".data = true
    ∧ substrB "6:00 PM".data "VOLLEYBALL TRAINING Aug 14, 2025 6:00 PM".data = true := by
  refine ⟨by decide, by decide, by decide, by decide⟩

/-- An item whose label is not `"Dates"` (after normalization) or that
has no label at all. -/
def notDatesLabel (it : LabeledItem) : Bool :=
  match it.label with
  | some lab => !(normStr lab = "Dates")
  | none => true

theorem campFields_skip :
    ∀ (items : List LabeledItem) (d r : String),
      items.all notDatesLabel = true → (campFields d r items).1 = d := by
  intro items
  induction items with
  | nil => intro d r _; rfl
  | cons it rest ih =>
    intro d r h
    rw [List.all_cons, Bool.and_eq_true] at h
    cases hl : it.label with
    | none => simp only [campFields, hl]; exact ih d r h.2
    | some lab =>
      have hnd : ¬(normStr lab = "Dates") := by
        have h1 := h.1
        unfold notDatesLabel at h1
        rw [hl] at h1
        simpa using h1
      simp only [campFields, hl]
      rw [if_neg hnd]
      by_cases hr : normStr lab = "Registration Starts"
      · rw [if_pos hr]; exact ih _ _ h.2
      · rw [if_neg hr]; exact ih d r h.2

theorem seasonDate_skip :
    ∀ (items : List LabeledItem) (d : String),
      items.all notDatesLabel = true → seasonDate d items = d := by
  intro items
  induction items with
  | nil => intro d _; rfl
  | cons it rest ih =>
    intro d h
    rw [List.all_cons, Bool.and_eq_true] at h
    cases hl : it.label with
    | none => simp only [seasonDate, hl]
    | some lab =>
      have hnd : ¬(normStr lab = "Dates") := by
        have h1 := h.1
        unfold notDatesLabel at h1
        rw [hl] at h1
        simpa using h1
      simp only [seasonDate, hl]
      rw [if_neg hnd]
      exact ih d h.2

/-- Concrete camps page for the C2 counterexample: one card with two
`Dates` items. -/
def c2Page : CampsPage :=
  ⟨true, [⟨"Camp", [⟨some "Dates", some "June 1"⟩, ⟨some "Dates", some "July 2"⟩]⟩]⟩

/-- Counterexample to claim C2 as stated: with two `Dates` items valued
`"June 1"` then `"July 2"`, the recorded value is the second, not the
first normalized value seen. -/
theorem first_value_recorded_cex :
    extract_camps c2Page = [⟨"Camp", "July 2", "", CAMPS_URL⟩]
    ∧ ("July 2" : String) ≠ normStr "June 1" := by
  refine ⟨by decide, by decide⟩

theorem campFields_last (items₂ : List LabeledItem) (lab v : String)
    (hlab : normStr lab = "Dates") (h2 : items₂.all notDatesLabel = true) :
    ∀ (items₁ : List LabeledItem),
      (items₁.all fun it => it.label.isSome) = true →
      ∀ (d r : String),
        (campFields d r (items₁ ++ ⟨some lab, some v⟩ :: items₂)).1 = normStr v := by
  intro items₁
  induction items₁ with
  | nil =>
    intro _ d r
    simp only [List.nil_append, campFields]
    rw [if_pos hlab]
    exact campFields_skip items₂ _ r h2
  | cons it rest ih =>
    intro h3 d r
    rw [List.all_cons, Bool.and_eq_true] at h3
    obtain ⟨lab₁, hl⟩ := Option.isSome_iff_exists.mp h3.1
    simp only [List.cons_append, campFields, hl]
    by_cases hd : normStr lab₁ = "Dates"
    · rw [if_pos hd]; exact ih h3.2 _ r
    · rw [if_neg hd]
      by_cases hr : normStr lab₁ = "Registration Starts"
      · rw [if_pos hr]; exact ih h3.2 d _
      · rw [if_neg hr]; exact ih h3.2 d r

theorem seasonDate_last (items₂ : List LabeledItem) (lab v : String)
    (hlab : normStr lab = "Dates") (h2 : items₂.all notDatesLabel = true) :
    ∀ (items₁ : List LabeledItem),
      (items₁.all fun it => it.label.isSome) = true →
      ∀ (d : String),
        seasonDate d (items₁ ++ ⟨some lab, some v⟩ :: items₂) = normStr v := by
  intro items₁
  induction items₁ with
  | nil =>
    intro _ d
    simp only [List.nil_append, seasonDate]
    rw [if_pos hlab]
    exact seasonDate_skip items₂ _ h2
  | cons it rest ih =>
    intro h3 d
    rw [List.all_cons, Bool.and_eq_true] at h3
    obtain ⟨lab₁, hl⟩ := Option.isSome_iff_exists.mp h3.1
    simp only [List.cons_append, seasonDate, hl]
    by_cases hd : normStr lab₁ = "Dates"
    · rw [if_pos hd]
      cases hv : it.value with
      | none => exact ih h3.2 d
      | some v₁ => exact ih h3.2 _
    · rw [if_neg hd]; exact ih h3.2 d

/-- Claim C2 as amended: in structured extraction each matching label
reassigns its field, so the recorded value is the one of the *last*
`Dates` item; this holds for the camps scan and, when the earlier items
all carry labels, for the training season-card scan. -/
theorem labeled_last_wins :
    ∀ (items₁ items₂ : List LabeledItem) (lab v d r : String),
      normStr lab = "Dates" →
      items₂.all notDatesLabel = true →
      (items₁.all fun it => it.label.isSome) = true →
      (campFields d r (items₁ ++ ⟨some lab, some v⟩ :: items₂)).1 = normStr v
      ∧ seasonDate d (items₁ ++ ⟨some lab, some v⟩ :: items₂) = normStr v :=
  fun items₁ items₂ lab v d r hlab h2 h3 =>
    ⟨campFields_last items₂ lab v hlab h2 items₁ h3 d r,
     seasonDate_last items₂ lab v hlab h2 items₁ h3 d⟩

theorem labeled_last_wins_witness :
    (campFields "" ""
        ([⟨some "Dates", some "X"⟩] ++ ⟨some "Dates", some "July 2"⟩ ::
          [⟨some "Price", some "P"⟩])).1 = normStr "July 2"
    ∧ seasonDate ""
        ([⟨some "Dates", some "X"⟩] ++ ⟨some "Dates", some "July 2"⟩ ::
          [⟨some "Price", some "P"⟩]) = normStr "July 2" :=
  labeled_last_wins [⟨some "Dates", some "X"⟩] [⟨some "Price", some "P"⟩]
    "Dates" "July 2" "" "" (by decide) (by decide) (by decide)

/-- Concrete season card for the C5 counterexample. -/
def c5Card : SeasonCard := ⟨"Camp A", []⟩

/-- Counterexample to claim C5 as stated: a season-card-mode output
record does carry the key `"time"` (with empty value), so the key is not
absent. -/
theorem season_time_key_cex :
    extract_events_from_season_cards ⟨true, [c5Card]⟩ "u" "" =
      [⟨"Camp A", "", "", "u"⟩]
    ∧ ("time", "") ∈ eventToDict ⟨"Camp A", "", "", "u"⟩ := by
  refine ⟨by decide, by decide⟩

/-- Claim C5 as amended: season-card-mode events always have `time` equal
to the empty string and the `time` key present in the serialized record;
every event record carries the same four keys in every mode. -/
theorem season_time_empty :
    (∀ (page : SeasonPage) (u f : String) (e : Event),
        e ∈ extract_events_from_season_cards page u f →
        e.time = "" ∧ ("time", "") ∈ eventToDict e)
    ∧ ∀ e : Event,
        (eventToDict e).map Prod.fst = ["title", "date", "time", "signup_url"] := by
  constructor
  · intro page u f e he
    obtain ⟨c, _, hsome⟩ := extract_events_from_season_cards_mem he
    obtain ⟨_, _, h2⟩ := seasonCardToEvent_eq hsome
    subst h2
    exact ⟨rfl, by simp [eventToDict]⟩
  · intro e; rfl

theorem season_time_empty_witness :
    (⟨"Camp A", "", "", "u"⟩ : Event).time = ""
    ∧ ("time", "") ∈ eventToDict ⟨"Camp A", "", "", "u"⟩ :=
  season_time_empty.1 ⟨true, [c5Card]⟩ "u" "" _ (by decide)

/-- Concrete event-session card for the C9 counterexample: no item is
labeled exactly `"Days & Time"` or `"Days"`, but the `"Weekdays"` label
contains `"Days"` case-insensitively. -/
def c9Card : SessionCard :=
  ⟨[⟨some "Weekdays", some "Mon Wed"⟩, ⟨some "Price", some "$50"⟩], ""⟩

/-- Counterexample to claim C9 as stated: on a card with no item labeled
`"Days & Time"` or `"Days"`, the time is taken from the `"Weekdays"` item
(substring selector match), not from the last labeled item. -/
theorem tier1_time_not_last_cex :
    (c9Card.items.all fun it =>
        !(it.label = some "Days & Time") && !(it.label = some "Days")) = true
    ∧ tier1Time c9Card = "Mon Wed"
    ∧ optNorm (lastWithSpanP c9Card.items) = "$50"
    ∧ tier1Time c9Card ≠ optNorm (lastWithSpanP c9Card.items) := by
  refine ⟨by decide, by decide, by decide, by decide⟩

theorem firstLabeledP_none {items : List LabeledItem} {needle : String}
    (h : ∀ it ∈ items, labelHasText it needle = false) :
    firstLabeledP items needle = none := by
  unfold firstLabeledP
  have hnil : items.filter (fun it => labelHasText it needle && it.value.isSome) = [] := by
    rw [List.filter_eq_nil_iff]
    intro a ha
    simp [h a ha]
  rw [hnil]
  rfl

/-- Claim C9 as amended: when no item's label *contains* `"Days & Time"`
or `"Days"` case-insensitively, the time is the value of the card's last
list item provided that item carries both a label and a value (empty
otherwise) — so the emitted time may hold the value of an unrelated
field outside the fixed label vocabulary. -/
theorem tier1_time_last_item :
    ∀ (card : SessionCard),
      (card.items.all fun it =>
          !(labelHasText it "Days & Time") && !(labelHasText it "Days")) = true →
      tier1Time card = optNorm (lastWithSpanP card.items) := by
  intro card h
  have h' := List.all_eq_true.mp h
  have h1 : firstLabeledP card.items "Days & Time" = none := by
    refine firstLabeledP_none ?_
    intro it hit
    have := h' it hit
    simp only [Bool.and_eq_true, Bool.not_eq_true'] at this
    exact this.1
  have h2 : firstLabeledP card.items "Days" = none := by
    refine firstLabeledP_none ?_
    intro it hit
    have := h' it hit
    simp only [Bool.and_eq_true, Bool.not_eq_true'] at this
    exact this.2
  unfold tier1Time
  rw [h1, h2]

/-- Concrete card for the C9 witness: a single unrelated labeled item. -/
def c9wCard : SessionCard := ⟨[⟨some "Location", some "Gym 2"⟩], ""⟩

theorem tier1_time_last_item_witness :
    tier1Time c9wCard = optNorm (lastWithSpanP c9wCard.items) :=
  tier1_time_last_item c9wCard (by decide)

end VballScrape
